import Mathlib

/-!
Shallow embedding of the core of `src/main.py` (QuantPro Terminal):
the `SmartQuantEngine.fetch_data` symbol resolver / fetcher and the
`SmartQuantEngine.apply_technicals` indicator calculator, together with
the UI-level `change_val` computation.

Conventions of the embedding:
* pandas `DataFrame` shape information (column header levels, index
  representation) is modelled by the `DF` structure; the numeric
  content of a bar table is modelled separately by the `Bars`
  structure whose columns are lists of rationals.
* IEEE-754 floats are modelled by `ℚ`; a NaN cell is modelled by
  `Option ℚ` with `none` for NaN.  Where the Python code divides by
  zero in float arithmetic (RSI), the inf/NaN outcome is modelled
  explicitly in the corresponding cell function.
* `yf.download` together with the network is modelled by a `Provider`
  oracle: a function from the index of the call (0-based, counting all
  download calls made so far in this `fetch_data` invocation) and the
  `(ticker, interval, period)` arguments to either a raised exception
  (`Except.error ()`) or a returned `DF`.  `fetch_data` additionally
  returns the trace of tickers it actually downloaded, in order.
-/

/-- pandas column headers: either a flat single level of names or a
`MultiIndex` with two levels (level 0 = field, level 1 = ticker), the
shape `yf.download` produces. -/
inductive PDColumns where
  | single (names : List String)
  | multi (pairs : List (String × String))
deriving DecidableEq, Repr

/-- `columns.get_level_values(0)` for a two-level `MultiIndex`;
on a flat index it is the names themselves. -/
def PDColumns.level0 : PDColumns → List String
  | .single names => names
  | .multi pairs => pairs.map Prod.fst

/-- Is the column header flat (single level)? -/
def PDColumns.isSingle : PDColumns → Bool
  | .single _ => true
  | .multi _ => false

/-- One entry of a DataFrame index: either the provider's raw
representation (a string, carrying the instant `pd.to_datetime` would
parse it to) or an already-parsed datetime instant. -/
inductive IdxEntry where
  | rawStr (s : String) (parsed : Int)
  | dt (t : Int)
deriving DecidableEq, Repr

/-- `pd.to_datetime`, entrywise: parses a raw entry to its datetime
instant and leaves an already-datetime entry unchanged. -/
def IdxEntry.to_datetime : IdxEntry → IdxEntry
  | .rawStr _ p => .dt p
  | .dt t => .dt t

/-- Does the entry have datetime type? -/
def IdxEntry.isDt : IdxEntry → Bool
  | .dt _ => true
  | .rawStr _ _ => false

/-- The shape of a DataFrame as returned by `yf.download`: its column
headers and its index.  (Numeric cell content is irrelevant to the
fetcher and is modelled separately by `Bars`.) -/
structure DF where
  columns : PDColumns
  index : List IdxEntry
deriving DecidableEq, Repr

/-- pandas `df.empty`: true iff some axis has length 0. -/
def DF.isEmpty (d : DF) : Bool :=
  d.index.isEmpty || d.columns.level0.isEmpty

/-- The `yf.download` oracle: call index (0-based across this
`fetch_data` invocation), ticker, interval, period ↦ raised exception
or returned frame. -/
abbrev Provider := Nat → String → String → String → Except Unit DF

/-- Python `str.strip()`: remove leading and trailing whitespace. -/
def pyStrip (s : String) : String :=
  ⟨(((s.data.dropWhile Char.isWhitespace).reverse.dropWhile Char.isWhitespace).reverse)⟩

/-- Python `str.upper()`: uppercase every character. -/
def pyUpper (s : String) : String := ⟨s.data.map Char.toUpper⟩

/-- Python `"." in query`: does the string contain a dot? -/
def pyContainsDot (query : String) : Bool := query.data.contains '.'

/-- `src/main.py` line 37: `period = "60d" if interval in ["15m", "1h"] else "max"`. -/
def periodOf (interval : String) : String :=
  if interval = "15m" ∨ interval = "1h" then "60d" else "max"

/-- `src/main.py` lines 28–30: `possible_tickers = [query]` and, when
`"." not in query`, `possible_tickers.insert(0, f"{query}.NS")`. -/
def possible_tickers (query : String) : List String :=
  if pyContainsDot query then [query] else [query ++ ".NS", query]

/-- `src/main.py` lines 46–50: flatten a `MultiIndex` column header to
its level-0 names (a flat header is left alone) and apply
`pd.to_datetime` to the index. -/
def normalize_df (d : DF) : DF :=
  { columns := match d.columns with
      | .multi pairs => .single (pairs.map Prod.fst)
      | .single names => .single names
    index := d.index.map IdxEntry.to_datetime }

/-- The candidate loop of `fetch_data` (lines 35–51), with the
surrounding `try`/`except` of lines 22 and 52–53 baked in: a raised
exception from the provider is caught and yields `(none, user_input)`;
a non-empty frame is normalized and returned with its ticker; if every
candidate returns an empty frame the result is `(none, query)`.  The
second component of the result is the trace of download calls made. -/
def fetchLoop (p : Provider) (interval period query user_input : String) :
    List String → Nat → (Option DF × String) × List String
  | [], _ => ((none, query), [])
  | t :: rest, n =>
    match p n t interval period with
    | .error _ => ((none, user_input), [t])
    | .ok df =>
      if df.isEmpty then
        let r := fetchLoop p interval period query user_input rest (n + 1)
        (r.1, t :: r.2)
      else ((some (normalize_df df), t), [t])

/-- `SmartQuantEngine.fetch_data` (`src/main.py` lines 17–53):
normalizes the user input (`strip().upper()`), generates the candidate
tickers, and runs the download loop.  Returns the `(data, symbol)`
pair of the source together with the trace of download calls. -/
def fetch_data (p : Provider) (user_input interval : String) :
    (Option DF × String) × List String :=
  let query := pyUpper (pyStrip user_input)
  fetchLoop p interval (periodOf interval) query user_input (possible_tickers query) 0

/-- The numeric columns of a bar table as consumed by
`apply_technicals` (`df['High']`, `df['Low']`, `df['Close']`,
`df['Volume']`; the `Open` column is not read by the calculator).
Cells model floats by rationals; the raw provider columns contain no
NaN. -/
structure Bars where
  high : List ℚ
  low : List ℚ
  close : List ℚ
  volume : List ℚ
deriving DecidableEq, Repr

/-- pandas `Series.diff()`: NaN in the first row, `x[i] - x[i-1]`
afterwards. -/
def seriesDiff (xs : List ℚ) : List (Option ℚ) :=
  match xs with
  | [] => []
  | _ :: rest => none :: List.zipWith (fun a b => some (a - b)) rest xs

/-- `delta.where(delta > 0, 0)` applied to one cell: a NaN compares
false, so it is replaced by 0 just like a non-positive delta. -/
def gainCell : Option ℚ → ℚ
  | none => 0
  | some d => if 0 < d then d else 0

/-- `(-delta.where(delta < 0, 0))` applied to one cell (the negation
is taken after the `where`). -/
def lossCell : Option ℚ → ℚ
  | none => -0
  | some d => -(if d < 0 then d else 0)

/-- One cell of `Series.rolling(window=w).mean()` on a NaN-free
series: defined only once `w` rows are available (the default
`min_periods = window`), and then the arithmetic mean of the trailing
`w` rows `i-w+1 .. i`. -/
def rollingMeanCell (w : Nat) (xs : List ℚ) (i : Nat) : Option ℚ :=
  if i + 1 < w then none
  else some (((xs.take (i + 1)).drop (i + 1 - w)).sum / (w : ℚ))

/-- `Series.rolling(window=w).mean()` on a NaN-free series. -/
def rollingMean (w : Nat) (xs : List ℚ) : List (Option ℚ) :=
  (List.range xs.length).map (rollingMeanCell w xs)

/-- One cell of `100 - (100 / (1 + (gain / loss)))` in IEEE float
arithmetic: with `loss = 0` and `gain ≠ 0` the ratio is `±inf` and the
expression collapses to `100`; with `loss = 0 = gain` it is NaN; a NaN
operand propagates. -/
def rsiCell : Option ℚ → Option ℚ → Option ℚ
  | some g, some l =>
    if l = 0 then (if g = 0 then none else some 100)
    else some (100 - 100 / (1 + g / l))
  | _, _ => none

/-- `(delta.where(delta > 0, 0))` (line 59): the per-row gains. -/
def gains (close : List ℚ) : List ℚ := (seriesDiff close).map gainCell

/-- `(-delta.where(delta < 0, 0))` (line 60): the per-row losses. -/
def losses (close : List ℚ) : List ℚ := (seriesDiff close).map lossCell

/-- The trailing 14-row average gain of `apply_technicals`
(line 59). -/
def avg_gain (close : List ℚ) : List (Option ℚ) :=
  rollingMean 14 (gains close)

/-- The trailing 14-row average loss of `apply_technicals`
(line 60). -/
def avg_loss (close : List ℚ) : List (Option ℚ) :=
  rollingMean 14 (losses close)

/-- `df['RSI']` (line 61): `100 - (100 / (1 + (gain / loss)))`
cellwise over the two rolling means. -/
def rsiCol (close : List ℚ) : List (Option ℚ) :=
  List.zipWith rsiCell (avg_gain close) (avg_loss close)

/-- `tp = (df['High'] + df['Low'] + df['Close']) / 3` (line 64). -/
def typical_price (df : Bars) : List ℚ :=
  List.zipWith (fun s c => (s + c) / 3) (List.zipWith (· + ·) df.high df.low) df.close

/-- pandas `Series.cumsum()` with running accumulator `a`. -/
def cumsumFrom (a : ℚ) : List ℚ → List ℚ
  | [] => []
  | x :: xs => (a + x) :: cumsumFrom (a + x) xs

/-- pandas `Series.cumsum()`. -/
def cumsum (xs : List ℚ) : List ℚ := cumsumFrom 0 xs

/-- `df['VWAP'] = (tp * df['Volume']).cumsum() / df['Volume'].cumsum()`
(line 65), elementwise division of the two running sums. -/
def vwapCol (df : Bars) : List ℚ :=
  List.zipWith (· / ·) (cumsum (List.zipWith (· * ·) (typical_price df) df.volume))
    (cumsum df.volume)

/-- `Series.ewm(span, adjust=False).mean()` after the first row:
`y_i = (1 - α) * y_{i-1} + α * x_i`. -/
def ewmAux (α : ℚ) (prev : ℚ) : List ℚ → List ℚ
  | [] => []
  | x :: xs =>
    let y := (1 - α) * prev + α * x
    y :: ewmAux α y xs

/-- `Series.ewm(span, adjust=False).mean()`: seeded by the first
value, then the no-adjustment recursion with `α = 2 / (span + 1)`. -/
def ewmMean (span : Nat) (xs : List ℚ) : List ℚ :=
  match xs with
  | [] => []
  | x :: rest => x :: ewmAux (2 / ((span : ℚ) + 1)) x rest

/-- One cell of `Series.rolling(window=w, min_periods=1).max()`: the
maximum of the trailing window of up to `w` rows, defined as soon as
one row exists. -/
def rollingMaxCell (w : Nat) (xs : List ℚ) (i : Nat) : Option ℚ :=
  match (xs.take (i + 1)).drop (i + 1 - w) with
  | [] => none
  | y :: ys => some (ys.foldl max y)

/-- One cell of `Series.rolling(window=w, min_periods=1).min()`. -/
def rollingMinCell (w : Nat) (xs : List ℚ) (i : Nat) : Option ℚ :=
  match (xs.take (i + 1)).drop (i + 1 - w) with
  | [] => none
  | y :: ys => some (ys.foldl min y)

/-- `df['52W_H'] = df['High'].rolling(window=252, min_periods=1).max()`
(line 72). -/
def w52hCol (df : Bars) : List (Option ℚ) :=
  (List.range df.high.length).map (rollingMaxCell 252 df.high)

/-- `df['52W_L'] = df['Low'].rolling(window=252, min_periods=1).min()`
(line 73). -/
def w52lCol (df : Bars) : List (Option ℚ) :=
  (List.range df.low.length).map (rollingMinCell 252 df.low)

/-- The output of `apply_technicals`: the input bars together with the
six derived columns assigned on lines 57–73. -/
structure TechDF extends Bars where
  RSI : List (Option ℚ)
  VWAP : List ℚ
  EMA_20 : List ℚ
  SMA_50 : List (Option ℚ)
  W52_H : List (Option ℚ)
  W52_L : List (Option ℚ)
deriving DecidableEq, Repr

/-- `SmartQuantEngine.apply_technicals` (`src/main.py` lines 56–75). -/
def apply_technicals (df : Bars) : TechDF :=
  { df with
    RSI := rsiCol df.close
    VWAP := vwapCol df
    EMA_20 := ewmMean 20 df.close
    SMA_50 := rollingMean 50 df.close
    W52_H := w52hCol df
    W52_L := w52lCol df }

/-- The column assignments of `apply_technicals` as (name, values)
pairs, in source order (lines 61, 65, 68, 69, 72, 73); the float
columns `VWAP` and `EMA_20` are injected into NaN-capable cells. -/
def appliedColumns (df : Bars) : List (String × List (Option ℚ)) :=
  [("RSI", rsiCol df.close),
   ("VWAP", (vwapCol df).map some),
   ("EMA_20", (ewmMean 20 df.close).map some),
   ("SMA_50", rollingMean 50 df.close),
   ("52W_H", w52hCol df),
   ("52W_L", w52lCol df)]

/-- `change_val` (`src/main.py` lines 170–177): from the last two rows
of the annotated frame, `((last['Close'] - prev['Close']) /
prev['Close']) * 100`; meaningless when fewer than two rows exist. -/
def change_val (close : List ℚ) : Option ℚ :=
  match close.reverse with
  | lastC :: prevC :: _ => some ((lastC - prevC) / prevC * 100)
  | _ => none

/-- Modelled from the spec (§4.2 "Percent change", §3 `pct_change`):
the per-row percent-change column the spec ascribes to the annotated
series — undefined at row 0, `(close[i]-close[i-1])/close[i-1]*100`
for `i > 0`.  `apply_technicals` in `src/main.py` has no corresponding
assignment; this definition exists to compare the spec's claim with
the columns the code actually appends. -/
def pctChangeSpec (close : List ℚ) : List (Option ℚ) :=
  List.zipWith (fun d c => d.map (fun dv => dv / c * 100))
    (seriesDiff close) ((0 : ℚ) :: close)

section FetchLemmas

/-- The candidate list is never empty. -/
lemma possible_tickers_ne_nil (query : String) : possible_tickers query ≠ [] := by
  unfold possible_tickers
  split <;> simp

/-- A successful result of the candidate loop comes from some download
call that returned a non-empty frame for the resolved ticker, and the
returned frame is its normalization. -/
lemma fetchLoop_success (p : Provider) (interval period query user_input : String) :
    ∀ (ts : List String) (n : Nat) (df' : DF) (sym : String),
      (fetchLoop p interval period query user_input ts n).1 = (some df', sym) →
      ∃ k d, p k sym interval period = Except.ok d ∧ d.isEmpty = false ∧
        df' = normalize_df d := by
  intro ts
  induction ts with
  | nil => intro n df' sym h; simp [fetchLoop] at h
  | cons t rest ih =>
    intro n df' sym h
    rw [fetchLoop] at h
    rcases hp : p n t interval period with e | d <;> simp only [hp] at h
    · simp at h
    · by_cases hemp : d.isEmpty = true
      · rw [if_pos hemp] at h
        exact ih (n + 1) df' sym h
      · rw [if_neg hemp] at h
        obtain ⟨h1, h2⟩ := Prod.mk.inj h
        exact ⟨n, d, h2 ▸ hp, Bool.not_eq_true _ ▸ hemp, (Option.some.inj h1).symm⟩

/-- Under a provider all of whose returned frames are empty, the loop
never succeeds and reports either the normalized query (all-empty) or
the raw user input (an exception occurred). -/
lemma fetchLoop_no_data (p : Provider) (interval period query user_input : String)
    (hp : ∀ n t d, p n t interval period = Except.ok d → d.isEmpty = true) :
    ∀ (ts : List String) (n : Nat),
      (fetchLoop p interval period query user_input ts n).1.1 = none ∧
      ((fetchLoop p interval period query user_input ts n).1.2 = query ∨
       (fetchLoop p interval period query user_input ts n).1.2 = user_input) := by
  intro ts
  induction ts with
  | nil => intro n; simp [fetchLoop]
  | cons t rest ih =>
    intro n
    rw [fetchLoop]
    rcases hpc : p n t interval period with e | d <;> simp only [hpc]
    · simp
    · rw [if_pos (hp n t d hpc)]
      exact ih (n + 1)

/-- If the provider raises on every call, the loop fails immediately
with the raw user input after the single call on the first candidate. -/
lemma fetchLoop_all_error (p : Provider) (interval period query user_input : String)
    (hp : ∀ n t, p n t interval period = Except.error ()) :
    ∀ (t : String) (ts : List String) (n : Nat),
      fetchLoop p interval period query user_input (t :: ts) n
        = ((none, user_input), [t]) := by
  intro t ts n
  rw [fetchLoop]
  simp only [hp n t]

/-- If every call returns an empty frame, the loop exhausts every
candidate and fails with the normalized query. -/
lemma fetchLoop_all_empty (p : Provider) (interval period query user_input : String)
    (hp : ∀ n t, ∃ d, p n t interval period = Except.ok d ∧ d.isEmpty = true) :
    ∀ (ts : List String) (n : Nat),
      fetchLoop p interval period query user_input ts n = ((none, query), ts) := by
  intro ts
  induction ts with
  | nil => intro n; simp [fetchLoop]
  | cons t rest ih =>
    intro n
    obtain ⟨d, hpd, hemp⟩ := hp n t
    rw [fetchLoop]
    simp only [hpd]
    rw [if_pos hemp, ih (n + 1)]

/-- The trace of download calls is a prefix of the candidate list:
each candidate is attempted at most once, in order. -/
lemma fetchLoop_trace_prefix (p : Provider) (interval period query user_input : String) :
    ∀ (ts : List String) (n : Nat),
      ∃ rest, ts = (fetchLoop p interval period query user_input ts n).2 ++ rest := by
  intro ts
  induction ts with
  | nil => intro n; exact ⟨[], by simp [fetchLoop]⟩
  | cons t rest ih =>
    intro n
    rw [fetchLoop]
    rcases hpc : p n t interval period with e | d <;> simp only [hpc]
    · exact ⟨rest, by simp⟩
    · by_cases hemp : d.isEmpty = true
      · rw [if_pos hemp]
        obtain ⟨r', hr'⟩ := ih (n + 1)
        exact ⟨r', by simpa using hr'⟩
      · rw [if_neg hemp]
        exact ⟨rest, by simp⟩

end FetchLemmas

/-- (normalization facts used by C2) -/
lemma normalize_df_columns (d : DF) :
    (normalize_df d).columns = PDColumns.single d.columns.level0 := by
  unfold normalize_df PDColumns.level0
  cases d.columns <;> rfl

/-- Every index entry produced by `pd.to_datetime` has datetime type. -/
lemma to_datetime_isDt (e : IdxEntry) : e.to_datetime.isDt = true := by
  cases e <;> rfl

/-- A `yf.download`-shaped frame: two header levels (field × ticker),
raw string index entries, non-empty. -/
def dfMulti : DF :=
  { columns := .multi [("Open", "RELIANCE.NS"), ("High", "RELIANCE.NS"),
      ("Low", "RELIANCE.NS"), ("Close", "RELIANCE.NS"), ("Volume", "RELIANCE.NS")]
    index := [.rawStr "2026-01-02" 20260102, .rawStr "2026-01-03" 20260103] }

/-- A flat, non-empty frame. -/
def dfFlat : DF :=
  { columns := .single ["Open", "High", "Low", "Close", "Volume"], index := [.dt 1] }

/-- An empty frame (no rows). -/
def dfEmptyRows : DF :=
  { columns := .single ["Open", "High", "Low", "Close", "Volume"], index := [] }

/-- A provider that always answers with the multi-header frame. -/
def pMulti : Provider := fun _ _ _ _ => .ok dfMulti

/-- A provider that always raises. -/
def pErr : Provider := fun _ _ _ _ => .error ()

/-- A provider that always answers with an empty frame. -/
def pEmpty : Provider := fun _ _ _ _ => .ok dfEmptyRows

/-- A transiently failing provider: the first download call raises,
every later call returns non-empty data. -/
def pFlaky : Provider := fun n _ _ _ => if n = 0 then .error () else .ok dfFlat

/-- C2: every successful `fetch_data` result comes from some provider
response for the resolved symbol, with the columns collapsed to the
single level of field names (the level-0 names of a two-level header)
and the index mapped through `pd.to_datetime`; in particular the
returned frame always has single-level columns and a datetime-typed
index, so `apply_technicals` never receives multi-level columns. -/
theorem fetch_data_flattens_columns (p : Provider) (user_input interval : String)
    (df' : DF) (sym : String) (tr : List String)
    (h : fetch_data p user_input interval = ((some df', sym), tr)) :
    (∃ k d, p k sym interval (periodOf interval) = Except.ok d ∧ d.isEmpty = false ∧
       df'.columns = PDColumns.single d.columns.level0 ∧
       df'.index = d.index.map IdxEntry.to_datetime) ∧
    df'.columns.isSingle = true ∧ df'.index.all IdxEntry.isDt = true := by
  have h1 : (fetch_data p user_input interval).1 = (some df', sym) := by rw [h]
  obtain ⟨k, d, hpk, hemp, hdf⟩ :=
    fetchLoop_success p interval (periodOf interval) (pyUpper (pyStrip user_input)) user_input
      (possible_tickers (pyUpper (pyStrip user_input))) 0 df' sym h1
  subst hdf
  refine ⟨⟨k, d, hpk, hemp, normalize_df_columns d, rfl⟩, ?_, ?_⟩
  · rw [normalize_df_columns d]; rfl
  · simp only [normalize_df, List.all_map, List.all_eq_true]
    intro e _
    exact to_datetime_isDt e

/-- C2 witness: a concrete fetch against a provider returning a
field × ticker multi-header frame with raw string index entries. -/
theorem fetch_data_flattens_columns_witness :
    (∃ k d, pMulti k "RELIANCE.NS" "1d" (periodOf "1d") = Except.ok d ∧ d.isEmpty = false ∧
       (normalize_df dfMulti).columns = PDColumns.single d.columns.level0 ∧
       (normalize_df dfMulti).index = d.index.map IdxEntry.to_datetime) ∧
    (normalize_df dfMulti).columns.isSingle = true ∧
    (normalize_df dfMulti).index.all IdxEntry.isDt = true :=
  fetch_data_flattens_columns pMulti "RELIANCE" "1d" (normalize_df dfMulti)
    "RELIANCE.NS" ["RELIANCE.NS"] (by decide)

/-- C3: when the normalized query has no market-suffix dot, the
candidate list is exactly `[query ++ ".NS", query]`; a non-empty
provider answer for the `.NS` candidate resolves to it with a single
download call, and an empty `.NS` answer followed by a non-empty raw
answer resolves to the raw query. -/
theorem fetch_data_tries_ns_first (p : Provider) (user_input interval query : String)
    (hq : pyUpper (pyStrip user_input) = query)
    (hdot : pyContainsDot query = false) :
    possible_tickers query = [query ++ ".NS", query] ∧
    (∀ d, p 0 (query ++ ".NS") interval (periodOf interval) = Except.ok d →
       d.isEmpty = false →
       fetch_data p user_input interval
         = ((some (normalize_df d), query ++ ".NS"), [query ++ ".NS"])) ∧
    (∀ d d', p 0 (query ++ ".NS") interval (periodOf interval) = Except.ok d →
       d.isEmpty = true →
       p 1 query interval (periodOf interval) = Except.ok d' → d'.isEmpty = false →
       fetch_data p user_input interval
         = ((some (normalize_df d'), query), [query ++ ".NS", query])) := by
  subst hq
  have hpt : possible_tickers (pyUpper (pyStrip user_input))
      = [pyUpper (pyStrip user_input) ++ ".NS", pyUpper (pyStrip user_input)] := by
    unfold possible_tickers
    rw [hdot]
    rfl
  refine ⟨hpt, ?_, ?_⟩
  · intro d hd hemp
    show fetchLoop p interval (periodOf interval) (pyUpper (pyStrip user_input)) user_input
        (possible_tickers (pyUpper (pyStrip user_input))) 0 = _
    rw [hpt, fetchLoop]
    simp only [hd]
    rw [if_neg (by simp [hemp])]
  · intro d d' hd hempty hd' hne
    show fetchLoop p interval (periodOf interval) (pyUpper (pyStrip user_input)) user_input
        (possible_tickers (pyUpper (pyStrip user_input))) 0 = _
    rw [hpt, fetchLoop]
    simp only [hd]
    rw [if_pos hempty, fetchLoop]
    simp only [hd']
    rw [if_neg (by simp [hne])]

/-- C3 witness: fetching `"RELIANCE"` at interval `"1d"` against a
provider with non-empty data for `"RELIANCE.NS"` resolves to
`"RELIANCE.NS"` on the first download call. -/
theorem fetch_data_tries_ns_first_witness :
    fetch_data pMulti "RELIANCE" "1d"
      = ((some (normalize_df dfMulti), "RELIANCE" ++ ".NS"), ["RELIANCE" ++ ".NS"]) :=
  (fetch_data_tries_ns_first pMulti "RELIANCE" "1d" "RELIANCE"
    (by decide) (by decide)).2.1 dfMulti rfl (by decide)

/-- C5: when every provider answer (on any candidate, any call) is an
empty frame, `fetch_data` returns the `None` failure marker paired
with a best-guess symbol (the normalized query, or the raw input on
the exception path), and — being a total function into the plain
result pair — propagates no exception. -/
theorem fetch_data_no_data_failure (p : Provider) (user_input interval : String)
    (hp : ∀ n t d, p n t interval (periodOf interval) = Except.ok d → d.isEmpty = true) :
    (fetch_data p user_input interval).1.1 = none ∧
    ((fetch_data p user_input interval).1.2 = pyUpper (pyStrip user_input) ∨
     (fetch_data p user_input interval).1.2 = user_input) :=
  fetchLoop_no_data p interval (periodOf interval) (pyUpper (pyStrip user_input)) user_input hp
    (possible_tickers (pyUpper (pyStrip user_input))) 0

/-- C5 witness: every candidate empty for `"RELIANCE"` → failure
marker with a best-guess symbol, no exception. -/
theorem fetch_data_no_data_failure_witness :
    (fetch_data pEmpty "RELIANCE" "1d").1.1 = none ∧
    ((fetch_data pEmpty "RELIANCE" "1d").1.2 = pyUpper (pyStrip "RELIANCE") ∨
     (fetch_data pEmpty "RELIANCE" "1d").1.2 = "RELIANCE") :=
  fetch_data_no_data_failure pEmpty "RELIANCE" "1d"
    (fun _ _ d hd => by injection hd with h; rw [← h]; rfl)

/-- C10: the two failure paths report differently-normalized symbols.
If every call raises, the `except` branch returns the caller's raw,
un-trimmed and un-upper-cased input; if every call returns an empty
frame, the all-candidates-empty branch returns the trimmed, upper-cased
query. -/
theorem fetch_data_failure_symbol_normalization (p : Provider) (user_input interval : String) :
    ((∀ n t, p n t interval (periodOf interval) = Except.error ()) →
       (fetch_data p user_input interval).1 = (none, user_input)) ∧
    ((∀ n t, ∃ d, p n t interval (periodOf interval) = Except.ok d ∧ d.isEmpty = true) →
       (fetch_data p user_input interval).1 = (none, pyUpper (pyStrip user_input))) := by
  constructor
  · intro hp
    rcases hpt : possible_tickers (pyUpper (pyStrip user_input)) with _ | ⟨t, ts⟩
    · exact absurd hpt (possible_tickers_ne_nil _)
    · show (fetchLoop p interval (periodOf interval) (pyUpper (pyStrip user_input)) user_input
          (possible_tickers (pyUpper (pyStrip user_input))) 0).1 = _
      rw [hpt, fetchLoop_all_error p interval (periodOf interval) _ user_input hp t ts 0]
  · intro hp
    show (fetchLoop p interval (periodOf interval) (pyUpper (pyStrip user_input)) user_input
        (possible_tickers (pyUpper (pyStrip user_input))) 0).1 = _
    rw [fetchLoop_all_empty p interval (periodOf interval) _ user_input hp
      (possible_tickers (pyUpper (pyStrip user_input))) 0]

/-- C10 witness: for the raw input `" reliance "` the exception path
reports `" reliance "` itself while the all-empty path reports the
normalized `"RELIANCE"`, and the two differ. -/
theorem fetch_data_failure_symbol_normalization_witness :
    (fetch_data pErr " reliance " "1d").1 = (none, " reliance ") ∧
    (fetch_data pEmpty " reliance " "1d").1 = (none, "RELIANCE") ∧
    (" reliance " : String) ≠ "RELIANCE" := by
  refine ⟨(fetch_data_failure_symbol_normalization pErr " reliance " "1d").1 (fun _ _ => rfl),
    ?_, by decide⟩
  have h := (fetch_data_failure_symbol_normalization pEmpty " reliance " "1d").2
    (fun _ _ => ⟨dfEmptyRows, rfl, rfl⟩)
  rw [h]
  decide

/-- C4 (amended): `fetch_data` makes no retries and no pauses: the
sequence of download calls is a prefix of the candidate list (each
candidate attempted at most once, in order), and an exception on the
very first call immediately becomes the failure result
`(None, user_input)` with no further attempt. -/
theorem fetch_data_single_attempt (p : Provider) (user_input interval : String) :
    (∃ rest, possible_tickers (pyUpper (pyStrip user_input))
       = (fetch_data p user_input interval).2 ++ rest) ∧
    (∀ t ts, possible_tickers (pyUpper (pyStrip user_input)) = t :: ts →
       p 0 t interval (periodOf interval) = Except.error () →
       fetch_data p user_input interval = ((none, user_input), [t])) := by
  constructor
  · exact fetchLoop_trace_prefix p interval (periodOf interval) (pyUpper (pyStrip user_input))
      user_input (possible_tickers (pyUpper (pyStrip user_input))) 0
  · intro t ts hts hp
    show fetchLoop p interval (periodOf interval) (pyUpper (pyStrip user_input)) user_input
        (possible_tickers (pyUpper (pyStrip user_input))) 0 = _
    rw [hts, fetchLoop]
    simp only [hp]

/-- C4 witness: concrete single-attempt behavior on an always-raising
provider. -/
theorem fetch_data_single_attempt_witness :
    (∃ rest, possible_tickers (pyUpper (pyStrip "RELIANCE"))
       = (fetch_data pErr "RELIANCE" "1d").2 ++ rest) ∧
    fetch_data pErr "RELIANCE" "1d" = ((none, "RELIANCE"), ["RELIANCE.NS"]) := by
  refine ⟨(fetch_data_single_attempt pErr "RELIANCE" "1d").1, ?_⟩
  have h := (fetch_data_single_attempt pErr "RELIANCE" "1d").2 "RELIANCE.NS" ["RELIANCE"]
    (by decide) rfl
  rw [h]

/-- C4 counterexample to the claimed retry policy: against a provider
whose first call raises and whose every later call would return
non-empty data, `fetch_data` returns the failure result after exactly
one download call — a second attempt (as a 3-attempt retry policy
would make) would have succeeded. -/
theorem fetch_data_no_retry_counterexample :
    fetch_data pFlaky "RELIANCE" "1d" = ((none, "RELIANCE"), ["RELIANCE.NS"]) ∧
    pFlaky 1 "RELIANCE.NS" "1d" "max" = Except.ok dfFlat ∧
    dfFlat.isEmpty = false := by
  refine ⟨by decide, rfl, rfl⟩

section ListHelpers

/-- Maximum of a list, 0 on the empty list (only used non-empty). -/
def listMax : List ℚ → ℚ
  | [] => 0
  | x :: xs => xs.foldl max x

/-- Minimum of a list, 0 on the empty list (only used non-empty). -/
def listMin : List ℚ → ℚ
  | [] => 0
  | x :: xs => xs.foldl min x

lemma le_foldl_max : ∀ (l : List ℚ) (a : ℚ), a ≤ l.foldl max a := by
  intro l
  induction l with
  | nil => intro a; exact le_refl a
  | cons x xs ih => intro a; exact le_trans (le_max_left a x) (ih (max a x))

lemma mem_le_foldl_max : ∀ (l : List ℚ) (a x : ℚ), x ∈ l → x ≤ l.foldl max a := by
  intro l
  induction l with
  | nil => intro a x hx; cases hx
  | cons y ys ih =>
    intro a x hx
    rcases List.mem_cons.mp hx with h | h
    · subst h
      exact le_trans (le_max_right a x) (le_foldl_max ys (max a x))
    · exact ih (max a y) x h

lemma le_listMax (l : List ℚ) (x : ℚ) (hx : x ∈ l) : x ≤ listMax l := by
  cases l with
  | nil => cases hx
  | cons y ys =>
    rcases List.mem_cons.mp hx with h | h
    · subst h; exact le_foldl_max ys x
    · exact mem_le_foldl_max ys y x h

lemma foldl_min_le : ∀ (l : List ℚ) (a : ℚ), l.foldl min a ≤ a := by
  intro l
  induction l with
  | nil => intro a; exact le_refl a
  | cons x xs ih => intro a; exact le_trans (ih (min a x)) (min_le_left a x)

lemma foldl_min_le_mem : ∀ (l : List ℚ) (a x : ℚ), x ∈ l → l.foldl min a ≤ x := by
  intro l
  induction l with
  | nil => intro a x hx; cases hx
  | cons y ys ih =>
    intro a x hx
    rcases List.mem_cons.mp hx with h | h
    · subst h
      exact le_trans (foldl_min_le ys (min a x)) (min_le_right a x)
    · exact ih (min a y) x h

lemma listMin_le (l : List ℚ) (x : ℚ) (hx : x ∈ l) : listMin l ≤ x := by
  cases l with
  | nil => cases hx
  | cons y ys =>
    rcases List.mem_cons.mp hx with h | h
    · subst h; exact foldl_min_le ys x
    · exact foldl_min_le_mem ys y x h

/-- Lookup in a map over `List.range`. -/
lemma getElem?_range_map {α : Type} (f : Nat → α) (n i : Nat) (h : i < n) :
    ((List.range n).map f)[i]? = some (f i) := by
  simp [List.getElem?_map, List.getElem?_range, h]

/-- Lookup in a `zipWith` of two lists. -/
lemma getElem?_zipWith_eq {α β γ : Type} (f : α → β → γ) (l1 : List α) (l2 : List β)
    (i : Nat) (a : α) (b : β) (h1 : l1[i]? = some a) (h2 : l2[i]? = some b) :
    (List.zipWith f l1 l2)[i]? = some (f a b) := by
  rw [List.getElem?_zipWith', h1, h2]
  rfl

/-- Cumulative sums: the `i`-th entry is the accumulator plus the sum
of the first `i+1` values. -/
lemma cumsumFrom_getElem? : ∀ (xs : List ℚ) (a : ℚ) (i : Nat), i < xs.length →
    (cumsumFrom a xs)[i]? = some (a + (xs.take (i + 1)).sum) := by
  intro xs
  induction xs with
  | nil => intro a i h; cases h
  | cons x xs ih =>
    intro a i h
    cases i with
    | zero => simp [cumsumFrom]
    | succ j =>
      have hj : j < xs.length := by simpa using h
      simp only [cumsumFrom, List.getElem?_cons_succ]
      rw [ih (a + x) j hj]
      simp [add_assoc]

lemma cumsumFrom_length : ∀ (xs : List ℚ) (a : ℚ), (cumsumFrom a xs).length = xs.length := by
  intro xs
  induction xs with
  | nil => intro a; rfl
  | cons x xs ih => intro a; simp [cumsumFrom, ih]

lemma cumsum_getElem? (xs : List ℚ) (i : Nat) (h : i < xs.length) :
    (cumsum xs)[i]? = some ((xs.take (i + 1)).sum) := by
  rw [cumsum, cumsumFrom_getElem? xs 0 i h, zero_add]

lemma cumsum_length (xs : List ℚ) : (cumsum xs).length = xs.length :=
  cumsumFrom_length xs 0

/-- Sums over prefixes of a list of non-negative values are monotone. -/
lemma sum_take_mono (xs : List ℚ) (h : ∀ x ∈ xs, 0 ≤ x) {i j : Nat} (hij : i ≤ j) :
    (xs.take i).sum ≤ (xs.take j).sum := by
  have hj : j = i + (j - i) := by omega
  rw [hj, List.take_add, List.sum_append]
  have : 0 ≤ ((xs.drop i).take (j - i)).sum :=
    List.sum_nonneg (fun x hx => h x (List.drop_subset i xs (List.take_subset _ _ hx)))
  linarith

/-- `take` distributes over `zipWith`. -/
lemma zipWith_take_take {α β γ : Type} (f : α → β → γ) :
    ∀ (l1 : List α) (l2 : List β) (n : Nat),
      (List.zipWith f l1 l2).take n = List.zipWith f (l1.take n) (l2.take n) := by
  intro l1
  induction l1 with
  | nil => intro l2 n; simp
  | cons x xs ih =>
    intro l2 n
    cases l2 with
    | nil => simp
    | cons y ys =>
      cases n with
      | zero => simp
      | succ m => simp [ih ys m]

/-- Weighted sums with non-negative weights are bounded above by the
bound on the values times the total weight. -/
lemma sum_zipWith_le (M : ℚ) : ∀ (ts ws : List ℚ), ts.length = ws.length →
    (∀ w ∈ ws, 0 ≤ w) → (∀ t ∈ ts, t ≤ M) →
    (List.zipWith (· * ·) ts ws).sum ≤ M * ws.sum := by
  intro ts
  induction ts with
  | nil =>
    intro ws hlen _ _
    have : ws = [] := List.length_eq_zero.mp (by simpa using hlen.symm)
    subst this; simp
  | cons t ts ih =>
    intro ws hlen hw ht
    cases ws with
    | nil => simp at hlen
    | cons w ws =>
      simp only [List.zipWith_cons_cons, List.sum_cons, mul_add]
      have h1 : t * w ≤ M * w :=
        mul_le_mul_of_nonneg_right (ht t (List.mem_cons_self t ts)) (hw w (List.mem_cons_self w ws))
      have h2 := ih ws (by simpa using hlen) (fun x hx => hw x (List.mem_cons_of_mem w hx))
        (fun x hx => ht x (List.mem_cons_of_mem t hx))
      linarith

/-- Weighted sums with non-negative weights are bounded below by the
lower bound on the values times the total weight. -/
lemma le_sum_zipWith (m : ℚ) : ∀ (ts ws : List ℚ), ts.length = ws.length →
    (∀ w ∈ ws, 0 ≤ w) → (∀ t ∈ ts, m ≤ t) →
    m * ws.sum ≤ (List.zipWith (· * ·) ts ws).sum := by
  intro ts
  induction ts with
  | nil =>
    intro ws hlen _ _
    have : ws = [] := List.length_eq_zero.mp (by simpa using hlen.symm)
    subst this; simp
  | cons t ts ih =>
    intro ws hlen hw ht
    cases ws with
    | nil => simp at hlen
    | cons w ws =>
      simp only [List.zipWith_cons_cons, List.sum_cons, mul_add]
      have h1 : m * w ≤ t * w :=
        mul_le_mul_of_nonneg_right (ht t (List.mem_cons_self t ts)) (hw w (List.mem_cons_self w ws))
      have h2 := ih ws (by simpa using hlen) (fun x hx => hw x (List.mem_cons_of_mem w hx))
        (fun x hx => ht x (List.mem_cons_of_mem t hx))
      linarith

end ListHelpers

/-- A concrete two-row bar table (high, low, close, volume). -/
def bars2 : Bars := { high := [2, 3], low := [1, 2], close := [1, 2], volume := [10, 10] }

/-- C8: the EMA(20) column is seeded by the first available close:
its row 0 equals the row-0 close exactly. -/
theorem ema20_seed (df : Bars) (h : df.close ≠ []) :
    (apply_technicals df).EMA_20[0]? = df.close[0]? := by
  rcases hc : df.close with _ | ⟨c, rest⟩
  · exact absurd hc h
  · simp [apply_technicals, ewmMean, hc]

/-- C8 witness. -/
theorem ema20_seed_witness :
    (apply_technicals bars2).EMA_20[0]? = bars2.close[0]? :=
  ema20_seed bars2 (by decide)

/-- C9 counterexample: for the concrete input `bars2`, no column
appended by `apply_technicals` equals the spec's per-row percent-change
column — the annotated frame carries no such field. -/
theorem pct_change_not_appended :
    pctChangeSpec bars2.close ∉ (appliedColumns bars2).map Prod.snd := by
  decide

/-- C9 (amended): `apply_technicals` appends exactly the six columns
RSI, VWAP, EMA_20, SMA_50, 52W_H, 52W_L — no percent-change field; the
per-period percent change is computed outside the calculator
(`change_val`, UI layer) for the final row only, as
`100 * (close[last] - close[prev]) / close[prev]`, sign included. -/
theorem change_val_last_row (df : Bars) (c0 c1 : ℚ) (rest : List ℚ)
    (h : df.close = rest ++ [c0, c1]) :
    (appliedColumns df).map Prod.fst = ["RSI", "VWAP", "EMA_20", "SMA_50", "52W_H", "52W_L"] ∧
    change_val df.close = some (100 * (c1 - c0) / c0) := by
  refine ⟨rfl, ?_⟩
  rw [h]
  simp only [change_val, List.reverse_append, List.reverse_cons, List.reverse_nil,
    List.nil_append, List.cons_append]
  exact congrArg some (by ring)

/-- C9 witness: for `bars2` (closes 1, 2) the UI change is `+100%`. -/
theorem change_val_last_row_witness :
    (appliedColumns bars2).map Prod.fst = ["RSI", "VWAP", "EMA_20", "SMA_50", "52W_H", "52W_L"] ∧
    change_val bars2.close = some (100 * (2 - 1) / 1) :=
  change_val_last_row bars2 1 2 [] rfl

section RsiLemmas

lemma seriesDiff_length (xs : List ℚ) : (seriesDiff xs).length = xs.length := by
  cases xs with
  | nil => rfl
  | cons x rest =>
    simp only [seriesDiff, List.length_cons, List.length_zipWith]
    omega

lemma gains_length (close : List ℚ) : (gains close).length = close.length := by
  simp [gains, seriesDiff_length]

lemma losses_length (close : List ℚ) : (losses close).length = close.length := by
  simp [losses, seriesDiff_length]

lemma gains_nonneg (close : List ℚ) : ∀ y ∈ gains close, 0 ≤ y := by
  intro y hy
  obtain ⟨o, _, rfl⟩ := List.mem_map.mp hy
  cases o with
  | none => exact le_refl 0
  | some d =>
    simp only [gainCell]
    split
    · linarith
    · exact le_refl 0

lemma losses_nonneg (close : List ℚ) : ∀ y ∈ losses close, 0 ≤ y := by
  intro y hy
  obtain ⟨o, _, rfl⟩ := List.mem_map.mp hy
  cases o with
  | none => simp [lossCell]
  | some d =>
    simp only [lossCell]
    split
    · linarith
    · simp

lemma rollingMean_length (w : Nat) (xs : List ℚ) : (rollingMean w xs).length = xs.length := by
  simp [rollingMean]

lemma rollingMean_getElem? (w : Nat) (xs : List ℚ) (i : Nat) (h : i < xs.length) :
    (rollingMean w xs)[i]? = some (rollingMeanCell w xs i) :=
  getElem?_range_map (rollingMeanCell w xs) xs.length i h

/-- A rolling mean of non-negative values is non-negative wherever
defined. -/
lemma rollingMeanCell_nonneg (w : Nat) (xs : List ℚ) (i : Nat)
    (hnn : ∀ y ∈ xs, 0 ≤ y) (v : ℚ) (hv : rollingMeanCell w xs i = some v) : 0 ≤ v := by
  unfold rollingMeanCell at hv
  split at hv
  · cases hv
  · have hsum : 0 ≤ (((xs.take (i + 1)).drop (i + 1 - w))).sum :=
      List.sum_nonneg (fun x hx => hnn x (List.take_subset _ _ (List.drop_subset _ _ hx)))
    have : v = (((xs.take (i + 1)).drop (i + 1 - w))).sum / (w : ℚ) :=
      (Option.some.inj hv).symm
    rw [this]
    exact div_nonneg hsum (by positivity)

lemma rsiCol_length (close : List ℚ) : (rsiCol close).length = close.length := by
  simp [rsiCol, avg_gain, avg_loss, rollingMean_length, gains_length, losses_length]

/-- The RSI cell at a defined row. -/
lemma rsiCol_getElem? (close : List ℚ) (i : Nat) (h : i < close.length) :
    (rsiCol close)[i]?
      = some (rsiCell (rollingMeanCell 14 (gains close) i)
          (rollingMeanCell 14 (losses close) i)) := by
  unfold rsiCol avg_gain avg_loss
  exact getElem?_zipWith_eq rsiCell _ _ i _ _
    (rollingMean_getElem? 14 (gains close) i (by rw [gains_length]; exact h))
    (rollingMean_getElem? 14 (losses close) i (by rw [losses_length]; exact h))

end RsiLemmas

/-- Core RSI facts over the raw close column (used by `rsi_bounds`). -/
lemma rsiCol_bounds (close : List ℚ) (i : Nat) :
    (∀ x, (rsiCol close)[i]? = some (some x) → 0 ≤ x ∧ x ≤ 100) ∧
    (∀ g, (avg_loss close)[i]? = some (some 0) → (avg_gain close)[i]? = some (some g) →
       0 < g → (rsiCol close)[i]? = some (some 100)) ∧
    ((avg_gain close)[i]? = some (some 0) → (avg_loss close)[i]? = some (some 0) →
       (rsiCol close)[i]? = some none) := by
  refine ⟨?_, ?_, ?_⟩
  · intro x hx
    have hlt : i < close.length := by
      by_contra hge
      rw [List.getElem?_eq_none (by rw [rsiCol_length]; omega)] at hx
      cases hx
    rw [rsiCol_getElem? close i hlt] at hx
    have hcell := Option.some.inj hx
    rcases hG : rollingMeanCell 14 (gains close) i with _ | gv <;> rw [hG] at hcell
    · cases hcell
    · rcases hL : rollingMeanCell 14 (losses close) i with _ | lv <;> rw [hL] at hcell
      · cases hcell
      · have hgv : 0 ≤ gv := rollingMeanCell_nonneg 14 (gains close) i (gains_nonneg close) gv hG
        have hlv : 0 ≤ lv := rollingMeanCell_nonneg 14 (losses close) i (losses_nonneg close) lv hL
        by_cases hl0 : lv = 0
        · rw [rsiCell, if_pos hl0] at hcell
          by_cases hg0 : gv = 0
          · rw [if_pos hg0] at hcell; cases hcell
          · rw [if_neg hg0] at hcell
            have : x = 100 := (Option.some.inj hcell).symm
            rw [this]; norm_num
        · rw [rsiCell, if_neg hl0] at hcell
          have hlpos : 0 < lv := lt_of_le_of_ne hlv (Ne.symm hl0)
          have hr : 0 ≤ gv / lv := div_nonneg hgv (le_of_lt hlpos)
          have hq1 : 0 < 100 / (1 + gv / lv) := div_pos (by norm_num) (by linarith)
          have hq2 : 100 / (1 + gv / lv) ≤ 100 := div_le_self (by norm_num) (by linarith)
          have : x = 100 - 100 / (1 + gv / lv) := (Option.some.inj hcell).symm
          rw [this]
          constructor <;> linarith
  · intro g hL hG hg
    have hlt : i < close.length := by
      by_contra hge
      rw [List.getElem?_eq_none
        (by rw [avg_loss, rollingMean_length, losses_length]; omega)] at hL
      cases hL
    rw [avg_loss, rollingMean_getElem? 14 (losses close) i
      (by rw [losses_length]; exact hlt)] at hL
    rw [avg_gain, rollingMean_getElem? 14 (gains close) i
      (by rw [gains_length]; exact hlt)] at hG
    rw [rsiCol_getElem? close i hlt, Option.some.inj hL, Option.some.inj hG]
    rw [rsiCell, if_pos rfl, if_neg (by linarith)]
  · intro hG hL
    have hlt : i < close.length := by
      by_contra hge
      rw [List.getElem?_eq_none
        (by rw [avg_gain, rollingMean_length, gains_length]; omega)] at hG
      cases hG
    rw [avg_loss, rollingMean_getElem? 14 (losses close) i
      (by rw [losses_length]; exact hlt)] at hL
    rw [avg_gain, rollingMean_getElem? 14 (gains close) i
      (by rw [gains_length]; exact hlt)] at hG
    rw [rsiCol_getElem? close i hlt, Option.some.inj hL, Option.some.inj hG]
    rw [rsiCell, if_pos rfl, if_pos rfl]

/-- C1: wherever the RSI column appended by `apply_technicals` is
defined its value lies in `[0, 100]`; a row with zero trailing average
loss and positive trailing average gain has RSI exactly 100 (the
division by zero is absorbed, not raised); a row whose trailing
average gain and average loss are both zero has an undefined (NaN) RSI
cell. -/
theorem rsi_bounds (df : Bars) (i : Nat) :
    (∀ x, (apply_technicals df).RSI[i]? = some (some x) → 0 ≤ x ∧ x ≤ 100) ∧
    (∀ g, (avg_loss df.close)[i]? = some (some 0) →
       (avg_gain df.close)[i]? = some (some g) → 0 < g →
       (apply_technicals df).RSI[i]? = some (some 100)) ∧
    ((avg_gain df.close)[i]? = some (some 0) → (avg_loss df.close)[i]? = some (some 0) →
       (apply_technicals df).RSI[i]? = some none) :=
  rsiCol_bounds df.close i

/-- A strictly rising 15-row close series. -/
def closeRise : List ℚ := [1, 2, 3, 4, 5, 6, 7, 8, 9, 10, 11, 12, 13, 14, 15]

/-- A flat 14-row close series (no price movement). -/
def closeFlat : List ℚ := [5, 5, 5, 5, 5, 5, 5, 5, 5, 5, 5, 5, 5, 5]

/-- Bar tables whose close columns are the two sample series. -/
def barsRise : Bars :=
  { high := closeRise, low := closeRise, close := closeRise, volume := closeRise }

/-- See `barsRise`. -/
def barsFlat : Bars :=
  { high := closeFlat, low := closeFlat, close := closeFlat, volume := closeFlat }

/-- C1 witness: the rising series has zero average loss and positive
average gain at row 13, so RSI is exactly 100 there (and in `[0,100]`);
the flat series has both averages zero at row 13, so RSI is NaN. -/
theorem rsi_bounds_witness :
    ((0 : ℚ) ≤ 100 ∧ (100 : ℚ) ≤ 100) ∧
    (apply_technicals barsRise).RSI[13]? = some (some 100) ∧
    (apply_technicals barsFlat).RSI[13]? = some none := by
  have hL : (avg_loss closeRise)[13]? = some (some 0) := by
    rw [avg_loss, rollingMean_getElem? 14 (losses closeRise) 13
      (by rw [losses_length]; norm_num [closeRise])]
    norm_num [rollingMeanCell, losses, seriesDiff, closeRise, lossCell]
  have hG : (avg_gain closeRise)[13]? = some (some (13 / 14)) := by
    rw [avg_gain, rollingMean_getElem? 14 (gains closeRise) 13
      (by rw [gains_length]; norm_num [closeRise])]
    norm_num [rollingMeanCell, gains, seriesDiff, closeRise, gainCell]
  have hGf : (avg_gain closeFlat)[13]? = some (some 0) := by
    rw [avg_gain, rollingMean_getElem? 14 (gains closeFlat) 13
      (by rw [gains_length]; norm_num [closeFlat])]
    norm_num [rollingMeanCell, gains, seriesDiff, closeFlat, gainCell]
  have hLf : (avg_loss closeFlat)[13]? = some (some 0) := by
    rw [avg_loss, rollingMean_getElem? 14 (losses closeFlat) 13
      (by rw [losses_length]; norm_num [closeFlat])]
    norm_num [rollingMeanCell, losses, seriesDiff, closeFlat, lossCell]
  have h100 := (rsi_bounds barsRise 13).2.1 (13 / 14) hL hG (by norm_num)
  exact ⟨(rsi_bounds barsRise 13).1 100 h100, h100, (rsi_bounds barsFlat 13).2.2 hGf hLf⟩

section VwapLemmas

lemma typical_price_length (df : Bars) (n : Nat) (hh : df.high.length = n)
    (hl : df.low.length = n) (hc : df.close.length = n) :
    (typical_price df).length = n := by
  simp [typical_price, List.length_zipWith, hh, hl, hc]

end VwapLemmas

/-- Core VWAP facts over the raw columns (used by `vwap_properties`). -/
lemma vwapCol_properties (df : Bars) (n : Nat)
    (hh : df.high.length = n) (hl : df.low.length = n)
    (hc : df.close.length = n) (hv : df.volume.length = n)
    (hvol : ∀ v ∈ df.volume, 0 < v) :
    (∀ i, i < n → (vwapCol df)[i]?
        = some (((List.zipWith (· * ·) (typical_price df) df.volume).take (i + 1)).sum
            / ((df.volume.take (i + 1)).sum))) ∧
    (∀ i j a b, i ≤ j → j < n →
       (cumsum df.volume)[i]? = some a → (cumsum df.volume)[j]? = some b → a ≤ b) ∧
    (∀ i w, (∀ x ∈ df.high, 0 < x) → (∀ x ∈ df.low, 0 < x) → (∀ x ∈ df.close, 0 < x) →
       i < n → (vwapCol df)[i]? = some w →
       listMin ((typical_price df).take (i + 1)) ≤ w ∧
       w ≤ listMax ((typical_price df).take (i + 1))) := by
  have htp : (typical_price df).length = n := typical_price_length df n hh hl hc
  have htpv : (List.zipWith (· * ·) (typical_price df) df.volume).length = n := by
    simp [List.length_zipWith, htp, hv]
  have hval : ∀ i, i < n → (vwapCol df)[i]?
      = some (((List.zipWith (· * ·) (typical_price df) df.volume).take (i + 1)).sum
          / ((df.volume.take (i + 1)).sum)) := by
    intro i hi
    exact getElem?_zipWith_eq (· / ·) _ _ i _ _
      (cumsum_getElem? _ i (by rw [htpv]; exact hi))
      (cumsum_getElem? df.volume i (by rw [hv]; exact hi))
  refine ⟨hval, ?_, ?_⟩
  · intro i j a b hij hj hA hB
    rw [cumsum_getElem? df.volume i (by rw [hv]; omega)] at hA
    rw [cumsum_getElem? df.volume j (by rw [hv]; exact hj)] at hB
    rw [← Option.some.inj hA, ← Option.some.inj hB]
    exact sum_take_mono df.volume (fun x hx => le_of_lt (hvol x hx)) (by omega)
  · intro i w _ _ _ hi hw
    rw [hval i hi] at hw
    have hw' := Option.some.inj hw
    have hts_len : ((typical_price df).take (i + 1)).length
        = (df.volume.take (i + 1)).length := by
      simp [List.length_take, htp, hv]
    have hws_pos : ∀ x ∈ df.volume.take (i + 1), 0 < x :=
      fun x hx => hvol x (List.take_subset _ _ hx)
    have hws_nonneg : ∀ x ∈ df.volume.take (i + 1), 0 ≤ x :=
      fun x hx => le_of_lt (hws_pos x hx)
    have hW : 0 < (df.volume.take (i + 1)).sum :=
      List.sum_pos _ hws_pos (by
        rw [← List.length_pos, List.length_take, hv]
        omega)
    have hS : (List.zipWith (· * ·) (typical_price df) df.volume).take (i + 1)
        = List.zipWith (· * ·) ((typical_price df).take (i + 1))
            (df.volume.take (i + 1)) :=
      zipWith_take_take (· * ·) (typical_price df) df.volume (i + 1)
    constructor
    · rw [← hw']
      rw [le_div_iff₀ hW, hS]
      exact le_sum_zipWith (listMin ((typical_price df).take (i + 1))) _ _ hts_len
        hws_nonneg (fun t ht => listMin_le _ t ht)
    · rw [← hw']
      rw [div_le_iff₀ hW, hS]
      exact sum_zipWith_le (listMax ((typical_price df).take (i + 1))) _ _ hts_len
        hws_nonneg (fun t ht => le_listMax _ t ht)

/-- C6: the VWAP column appended by `apply_technicals` at each row
equals the running sum of `typical_price * volume` divided by the
running sum of `volume`; the denominator column (cumulative volume) is
non-decreasing; and, for an all-positive-price series with positive
volumes, each VWAP value lies between the running minimum and the
running maximum of the typical price over rows `0..i`. -/
theorem vwap_properties (df : Bars) (n : Nat)
    (hh : df.high.length = n) (hl : df.low.length = n)
    (hc : df.close.length = n) (hv : df.volume.length = n)
    (hvol : ∀ v ∈ df.volume, 0 < v) :
    (∀ i, i < n → (apply_technicals df).VWAP[i]?
        = some (((List.zipWith (· * ·) (typical_price df) df.volume).take (i + 1)).sum
            / ((df.volume.take (i + 1)).sum))) ∧
    (∀ i j a b, i ≤ j → j < n →
       (cumsum df.volume)[i]? = some a → (cumsum df.volume)[j]? = some b → a ≤ b) ∧
    (∀ i w, (∀ x ∈ df.high, 0 < x) → (∀ x ∈ df.low, 0 < x) → (∀ x ∈ df.close, 0 < x) →
       i < n → (apply_technicals df).VWAP[i]? = some w →
       listMin ((typical_price df).take (i + 1)) ≤ w ∧
       w ≤ listMax ((typical_price df).take (i + 1))) :=
  vwapCol_properties df n hh hl hc hv hvol

/-- C6 witness: the two-row table `bars2` (typical prices 4/3 and 7/3,
volumes 10 and 10) has VWAP 11/6 at row 1, which lies between the
running min 4/3 and max 7/3, and cumulative volume rises from 10 to 20. -/
theorem vwap_properties_witness :
    (apply_technicals bars2).VWAP[1]?
      = some (((List.zipWith (· * ·) (typical_price bars2) bars2.volume).take 2).sum
          / ((bars2.volume.take 2).sum)) ∧
    ((10 : ℚ) ≤ 20) ∧
    (listMin ((typical_price bars2).take 2) ≤ 11 / 6 ∧
     (11 / 6 : ℚ) ≤ listMax ((typical_price bars2).take 2)) := by
  have T := vwap_properties bars2 2 rfl rfl rfl rfl (by norm_num [bars2])
  refine ⟨T.1 1 (by norm_num), ?_, ?_⟩
  · exact T.2.1 0 1 10 20 (by norm_num) (by norm_num)
      (by norm_num [cumsum, cumsumFrom, bars2]) (by norm_num [cumsum, cumsumFrom, bars2])
  · exact T.2.2 1 (11 / 6) (by norm_num [bars2]) (by norm_num [bars2]) (by norm_num [bars2])
      (by norm_num)
      (by norm_num [apply_technicals, vwapCol, typical_price, cumsum, cumsumFrom, bars2])

/-- C7: when every row's high is at least its low, the 52-week-high
column is at least the 52-week-low column at every row, and both are
defined (non-NaN) from row 0 on (the `min_periods=1` policy fills the
window with however many rows exist). -/
theorem w52_high_ge_low (df : Bars) (hf : List.Forall₂ (· ≤ ·) df.low df.high)
    (i : Nat) (hi : i < df.high.length) :
    ∃ hv lv, (apply_technicals df).W52_H[i]? = some (some hv) ∧
      (apply_technicals df).W52_L[i]? = some (some lv) ∧ lv ≤ hv := by
  obtain ⟨hlen, hget⟩ := List.forall₂_iff_get.mp hf
  have hil : i < df.low.length := by omega
  have hs : i + 1 - 252 < i + 1 := by omega
  have hwl_len : ((df.low.take (i + 1)).drop (i + 1 - 252)).length
      = (i + 1) - (i + 1 - 252) := by
    simp only [List.length_drop, List.length_take]
    omega
  have hwh_len : ((df.high.take (i + 1)).drop (i + 1 - 252)).length
      = (i + 1) - (i + 1 - 252) := by
    simp only [List.length_drop, List.length_take]
    omega
  rcases hwl : (df.low.take (i + 1)).drop (i + 1 - 252) with _ | ⟨z, zs⟩
  · rw [hwl] at hwl_len
    simp at hwl_len
    omega
  rcases hwh : (df.high.take (i + 1)).drop (i + 1 - 252) with _ | ⟨y, ys⟩
  · rw [hwh] at hwh_len
    simp at hwh_len
    omega
  have hsl : i + 1 - 252 < df.low.length := by omega
  have hsh : i + 1 - 252 < df.high.length := by omega
  have hz : z = df.low.get ⟨i + 1 - 252, hsl⟩ := by
    have h1 : ((df.low.take (i + 1)).drop (i + 1 - 252))[0]? = some z := by
      rw [hwl]; exact List.getElem?_cons_zero
    simp only [List.getElem?_drop, Nat.add_zero, List.getElem?_take] at h1
    rw [if_pos hs, List.getElem?_eq_getElem hsl] at h1
    exact (Option.some.inj h1).symm
  have hy : y = df.high.get ⟨i + 1 - 252, hsh⟩ := by
    have h1 : ((df.high.take (i + 1)).drop (i + 1 - 252))[0]? = some y := by
      rw [hwh]; exact List.getElem?_cons_zero
    simp only [List.getElem?_drop, Nat.add_zero, List.getElem?_take] at h1
    rw [if_pos hs, List.getElem?_eq_getElem hsh] at h1
    exact (Option.some.inj h1).symm
  refine ⟨ys.foldl max y, zs.foldl min z, ?_, ?_, ?_⟩
  · show (w52hCol df)[i]? = _
    rw [w52hCol, getElem?_range_map _ _ i hi]
    simp only [rollingMaxCell, hwh]
  · show (w52lCol df)[i]? = _
    rw [w52lCol, getElem?_range_map _ _ i hil]
    simp only [rollingMinCell, hwl]
  · calc zs.foldl min z ≤ z := foldl_min_le zs z
      _ ≤ y := by rw [hz, hy]; exact hget (i + 1 - 252) hsl hsh
      _ ≤ ys.foldl max y := le_foldl_max ys y

/-- C7 witness: for `bars2`, row 0 has 52W high 2, 52W low 1. -/
theorem w52_high_ge_low_witness :
    ∃ hv lv, (apply_technicals bars2).W52_H[0]? = some (some hv) ∧
      (apply_technicals bars2).W52_L[0]? = some (some lv) ∧ lv ≤ hv :=
  w52_high_ge_low bars2 (by norm_num [bars2]) 0 (by norm_num [bars2])
